import Mathlib

set_option maxHeartbeats 1000000

/-!
Verification development for the module-rules engine of this repository
(hooks/lib/module-rules.ts): catalog loading, front-matter parsing,
cascade merging, trigger detection and budgeted assembly.

The embedding is shallow: JavaScript objects become association lists with
JS-object update semantics, the filesystem and the two external search
primitives (glob scanning and grep) become oracle functions gathered in a
World record, thrown exceptions become Option/Except failures, and JS
truthiness is modelled explicitly where the code relies on it.
-/

/-! JS-object style association maps (string keys, insertion order,
assignment replaces in place, delete removes the key). -/

def objGet {α : Type} (m : List (String × α)) (k : String) : Option α :=
  (m.find? (fun e => e.1 == k)).map (fun e => e.2)

def objHas {α : Type} (m : List (String × α)) (k : String) : Bool :=
  m.any (fun e => e.1 == k)

def objSet {α : Type} (m : List (String × α)) (k : String) (v : α) : List (String × α) :=
  if objHas m k then m.map (fun e => if e.1 == k then (k, v) else e) else m ++ [(k, v)]

def objDelete {α : Type} (m : List (String × α)) (k : String) : List (String × α) :=
  m.filter (fun e => !(e.1 == k))


def objKeys {α : Type} (m : List (String × α)) : List String := m.map Prod.fst

theorem objGet_cons {α : Type} (e : String × α) (m : List (String × α)) (k : String) :
    objGet (e :: m) k = if e.1 == k then some e.2 else objGet m k := by
  simp only [objGet, List.find?]
  rcases h : (e.1 == k) with _ | _ <;> simp [h]

theorem objHas_cons {α : Type} (e : String × α) (m : List (String × α)) (k : String) :
    objHas (e :: m) k = (e.1 == k || objHas m k) := by
  simp [objHas]

theorem objGet_map_set {α : Type} (m : List (String × α)) (k : String) (v : α) :
    objGet (m.map (fun e => if e.1 == k then (k, v) else e)) k
      = if objHas m k then some v else none := by
  induction m with
  | nil => rfl
  | cons e t ih =>
    simp only [beq_iff_eq] at ih
    by_cases hek : e.1 = k
    · simp [objGet_cons, objHas_cons, hek]
    · simp [objGet_cons, objHas_cons, hek, ih]

theorem objGet_map_set_ne {α : Type} (m : List (String × α)) (k k' : String) (v : α)
    (h : k ≠ k') :
    objGet (m.map (fun e => if e.1 == k then (k, v) else e)) k' = objGet m k' := by
  induction m with
  | nil => rfl
  | cons e t ih =>
    simp only [beq_iff_eq] at ih
    by_cases hek : e.1 = k
    · simp [objGet_cons, hek, h, Ne.symm h, ih]
    · by_cases hek' : e.1 = k'
      · simp [objGet_cons, hek, hek', Ne.symm h]
      · simp [objGet_cons, hek, hek', ih]

theorem objGet_append_any {α : Type} (m₁ m₂ : List (String × α)) (k : String) :
    objGet (m₁ ++ m₂) k
      = match objGet m₁ k with
        | some v => some v
        | none => objGet m₂ k := by
  induction m₁ with
  | nil => rfl
  | cons e t ih =>
    by_cases hek : e.1 = k
    · simp [objGet_cons, hek]
    · simp [objGet_cons, hek, ih]

theorem objGet_eq_none_of_not_has {α : Type} (m : List (String × α)) (k : String)
    (h : objHas m k = false) : objGet m k = none := by
  induction m with
  | nil => rfl
  | cons e t ih =>
    rw [objHas_cons] at h
    rcases Bool.or_eq_false_iff.mp h with ⟨h1, h2⟩
    rw [objGet_cons, h1, if_neg (by simp)]
    exact ih h2

theorem objGet_objSet_self {α : Type} (m : List (String × α)) (k : String) (v : α) :
    objGet (objSet m k v) k = some v := by
  unfold objSet
  by_cases h : objHas m k = true
  · rw [if_pos h, objGet_map_set, if_pos h]
  · rw [if_neg h, objGet_append_any,
      objGet_eq_none_of_not_has m k (Bool.not_eq_true _ ▸ h)]
    simp [objGet_cons]

theorem objGet_objSet_ne {α : Type} (m : List (String × α)) (k k' : String) (v : α)
    (h : k ≠ k') : objGet (objSet m k v) k' = objGet m k' := by
  unfold objSet
  by_cases hh : objHas m k = true
  · rw [if_pos hh]
    exact objGet_map_set_ne m k k' v h
  · rw [if_neg hh, objGet_append_any]
    have h1 : objGet [(k, v)] k' = none := by
      rw [objGet_cons, if_neg (by simp [h])]; rfl
    rw [h1]
    rcases objGet m k' <;> simp

theorem objGet_objDelete_self {α : Type} (m : List (String × α)) (k : String) :
    objGet (objDelete m k) k = none := by
  induction m with
  | nil => rfl
  | cons e t ih =>
    unfold objDelete at ih ⊢
    rw [List.filter_cons]
    by_cases hek : e.1 = k
    · simp only [hek, beq_self_eq_true, Bool.not_true, Bool.false_eq_true, if_false]
      exact ih
    · have : (!(e.1 == k)) = true := by simp [hek]
      rw [if_pos this, objGet_cons, if_neg (by simp [hek])]
      exact ih

theorem objGet_objDelete_ne {α : Type} (m : List (String × α)) (k k' : String)
    (h : k ≠ k') : objGet (objDelete m k) k' = objGet m k' := by
  induction m with
  | nil => rfl
  | cons e t ih =>
    unfold objDelete at ih ⊢
    rw [List.filter_cons]
    by_cases hek : e.1 = k
    · simp only [hek, beq_self_eq_true, Bool.not_true, Bool.false_eq_true, if_false]
      rw [ih, objGet_cons, if_neg (by simp [hek, h])]
    · have : (!(e.1 == k)) = true := by simp [hek]
      rw [if_pos this, objGet_cons, objGet_cons]
      by_cases hek' : e.1 = k'
      · simp [hek']
      · rw [if_neg (by simp [hek']), if_neg (by simp [hek']), ih]

/-! Character and string helpers modelling the JavaScript string primitives
used by module-rules.ts. All of them work on the underlying character list
so that concrete witnesses evaluate inside the kernel. -/

def startsWithL (hay needle : List Char) : Bool :=
  match hay, needle with
  | _, [] => true
  | [], _ :: _ => false
  | h :: hs, n :: ns => h == n && startsWithL hs ns

def containsL (needle : List Char) : List Char → Bool
  | [] => startsWithL [] needle
  | h :: t => startsWithL (h :: t) needle || containsL needle t

/-- Models the JavaScript String.prototype.includes substring test. -/
def jsIncludes (s sub : String) : Bool := containsL sub.toList s.toList

def jsWS (c : Char) : Bool := c == ' ' || c == '\t' || c == '\n' || c == '\r'

/-- Models String.prototype.trim (whitespace stripped from both ends). -/
def jsTrim (s : String) : String :=
  String.mk (((s.toList.dropWhile jsWS).reverse.dropWhile jsWS).reverse)

def jsStartsWith (s pre : String) : Bool := startsWithL s.toList pre.toList

def jsEndsWith (s suf : String) : Bool :=
  startsWithL s.toList.reverse suf.toList.reverse

def jsDrop (s : String) (n : Nat) : String := String.mk (s.toList.drop n)

def jsTake (s : String) (n : Nat) : String := String.mk (s.toList.take n)

def jsDropRight (s : String) (n : Nat) : String :=
  String.mk (s.toList.take (s.toList.length - n))

def jsToLower (s : String) : String := String.mk (s.toList.map Char.toLower)

def jsToUpper (s : String) : String := String.mk (s.toList.map Char.toUpper)

def jsLength (s : String) : Nat := s.toList.length

/-- Index of the first occurrence of needle inside the list, if any. -/
def findSubIdx (needle : List Char) : List Char → Option Nat
  | [] => if needle.isEmpty then some 0 else none
  | c :: rest =>
    if startsWithL (c :: rest) needle then some 0
    else (findSubIdx needle rest).map (· + 1)

def jsSplitGo (sep : List Char) : Nat → List Char → List (List Char)
  | 0, s => [s]
  | fuel + 1, s =>
    match findSubIdx sep s with
    | none => [s]
    | some i => s.take i :: jsSplitGo sep fuel (s.drop (i + sep.length))

/-- Models String.prototype.split with a non-empty string separator. -/
def jsSplit (s sep : String) : List String :=
  if sep.toList.isEmpty then [s]
  else (jsSplitGo sep.toList s.toList.length s.toList).map String.mk

/-- Models Array.prototype.join / the separators used when assembling text. -/
def jsJoin (sep : String) (parts : List String) : String :=
  String.mk (List.intercalate sep.toList (parts.map String.toList))

/-- Index of the first colon of a line, as String.prototype.indexOf would
report it (none for -1). -/
def colonIndex (line : String) : Option Nat :=
  line.toList.findIdx? (fun c => c == ':')

def isQuoteChar (c : Char) : Bool := c == '"' || c == '\''

/-- Models value.replace(quote-at-start-or-end regex, empty string): one
leading and one trailing quote character are stripped when present. -/
def stripQuotes (s : String) : String :=
  let cs := s.toList
  let cs1 := match cs with
    | c :: t => if isQuoteChar c then t else c :: t
    | [] => []
  let cs2 := match cs1.getLast? with
    | some c => if isQuoteChar c then cs1.dropLast else cs1
    | none => []
  String.mk cs2

/-! Data model of module-rules.ts. Frontmatter values mirror the untyped
JavaScript object the hand-rolled YAML parser builds: block arrays live in
a heap (list of arrays) and are referenced by index, because the code keeps
a mutable reference (currentArray) aliasing the array stored under the
triggers object. -/

/-- A value stored under the triggers object: either a reference into the
heap of block arrays or an inline array parsed from bracket syntax. -/
inductive TrigVal : Type where
  | href (i : Nat)
  | inline (items : List String)
deriving DecidableEq, Repr

/-- A frontmatter value: string, numeric (raw text kept, since only its JS
truthiness and placement matter to the code under proof), boolean, a plain
object (created by a triggers line), or an inline array object that can
additionally carry named properties (JS arrays accept property writes). -/
inductive FMValue : Type where
  | str (s : String)
  | num (raw : String)
  | bool (b : Bool)
  | obj (fields : List (String × TrigVal))
  | arr (items : List String) (props : List (String × TrigVal))
deriving DecidableEq, Repr

/-- The Triggers interface: four optional trigger-kind lists. -/
structure Triggers : Type where
  filePatterns : Option (List String)
  imports : Option (List String)
  dependencies : Option (List String)
  keywords : Option (List String)
deriving DecidableEq, Repr

/-- The ReferenceEntry interface. The description keeps the raw frontmatter
value (the code never reads it); disabled and overrideTriggers are stored
as their JS truthiness, which is the only way the code observes them. -/
structure ReferenceEntry : Type where
  name : String
  path : String
  description : Option FMValue
  triggers : Triggers
  priority : Int
  maxTokens : Int
  disabled : Bool
  overrideTriggers : Bool
deriving DecidableEq, Repr

/-- The ReferenceIndex interface: a JS object keyed by module name. -/
abbrev ReferenceIndex : Type := List (String × ReferenceEntry)

/-- The DetectionResult interface. -/
structure DetectionResult : Type where
  module : String
  path : String
  priority : Int
  maxTokens : Int
  triggers : List String
deriving DecidableEq, Repr

/-- The ModuleRulesConfig interface. -/
structure ModuleRulesConfig : Type where
  userDir : String
  projectDir : String
  cwd : String
  prompt : Option String

/-- Oracles for everything outside the code under proof: the filesystem,
JSON.parse, Bun Glob scanning, the grep child process and JS numeric
parsing. A fixed World is a fixed filesystem and process environment.
readFile returns none when readFileSync would throw; globScan returns the
paths the scan yields plus a flag saying whether the iteration ends by
throwing (true) instead of finishing normally; grepOut is the stdout of
the spawned grep, none when spawning throws. -/
structure World : Type where
  existsSync : String → Bool
  readFile : String → Option String
  readdir : String → List String
  parseJson : String → Option ReferenceIndex
  parsePkg : String → Option (List (String × String))
  isNumeric : String → Bool
  numIsZero : String → Bool
  fmNumber : FMValue → Int
  globScan : String → String → List String × Bool
  grepOut : String → String → Option String

/-- Models path.join as used on the simple relative segments in the code. -/
def pathJoin (a b : String) : String := a ++ "/" ++ b

/-- JS truthiness of an optional frontmatter value (undefined is falsy,
objects and arrays are truthy, empty strings, zero and false are falsy). -/
def fmTruthy (w : World) : Option FMValue → Bool
  | none => false
  | some (.str s) => !(s == "")
  | some (.num raw) => !(w.numIsZero raw)
  | some (.bool b) => b
  | some (.obj _) => true
  | some (.arr _ _) => true

/-- JS truthiness of a string-or-null value. -/
def strTruthy : Option String → Bool
  | none => false
  | some s => !(s == "")

/-! Cascade Merger (mergeIndices, mergeTriggers). -/

/-- Merge two trigger objects additively: each of the four lists becomes
user list concatenated with project list, absent lists read as empty. -/
def mergeTriggers (userTriggers projectTriggers : Triggers) : Triggers :=
  { filePatterns :=
      some (userTriggers.filePatterns.getD [] ++ projectTriggers.filePatterns.getD [])
    imports :=
      some (userTriggers.imports.getD [] ++ projectTriggers.imports.getD [])
    dependencies :=
      some (userTriggers.dependencies.getD [] ++ projectTriggers.dependencies.getD [])
    keywords :=
      some (userTriggers.keywords.getD [] ++ projectTriggers.keywords.getD []) }

/-- One iteration of the merge loop over a project entry. -/
def mergeStep (merged : ReferenceIndex) (nr : String × ReferenceEntry) : ReferenceIndex :=
  if nr.2.disabled then objDelete merged nr.1
  else
    match objGet merged nr.1 with
    | some existing =>
      if nr.2.overrideTriggers then objSet merged nr.1 nr.2
      else objSet merged nr.1
        { nr.2 with triggers := mergeTriggers existing.triggers nr.2.triggers }
    | none => objSet merged nr.1 nr.2

/-- Merge user and project indices with cascade rules (mergeIndices). -/
def mergeIndices (userIndex projectIndex : Option ReferenceIndex) : ReferenceIndex :=
  let merged : ReferenceIndex := userIndex.getD []
  match projectIndex with
  | none => merged
  | some pIdx => pIdx.foldl mergeStep merged

theorem mergeStep_get_ne (acc : ReferenceIndex) (nr : String × ReferenceEntry)
    (n : String) (h : nr.1 ≠ n) : objGet (mergeStep acc nr) n = objGet acc n := by
  unfold mergeStep
  split
  · exact objGet_objDelete_ne acc nr.1 n h
  · split
    · split
      · exact objGet_objSet_ne acc nr.1 n _ h
      · exact objGet_objSet_ne acc nr.1 n _ h
    · exact objGet_objSet_ne acc nr.1 n _ h

theorem mergeLoop_get_notmem (l : List (String × ReferenceEntry))
    (acc : ReferenceIndex) (n : String) (h : n ∉ objKeys l) :
    objGet (l.foldl mergeStep acc) n = objGet acc n := by
  induction l generalizing acc with
  | nil => rfl
  | cons nr t ih =>
    simp only [objKeys, List.map_cons, List.mem_cons, not_or] at h
    rw [List.foldl_cons, ih (mergeStep acc nr) (by simp [objKeys, h.2]),
      mergeStep_get_ne acc nr n (fun hc => h.1 hc.symm)]

theorem mergeLoop_disabled_source (l : List (String × ReferenceEntry))
    (acc : ReferenceIndex) (n : String) (e : ReferenceEntry)
    (hget : objGet (l.foldl mergeStep acc) n = some e) (hd : e.disabled = true) :
    objGet acc n = some e ∧ n ∉ objKeys l := by
  induction l generalizing acc with
  | nil => exact ⟨hget, by simp [objKeys]⟩
  | cons nr t ih =>
    rw [List.foldl_cons] at hget
    rcases ih (mergeStep acc nr) hget with ⟨hstep, hnot⟩
    by_cases hk : nr.1 = n
    · exfalso
      unfold mergeStep at hstep
      rw [hk] at hstep
      split at hstep
      · rw [objGet_objDelete_self] at hstep
        exact Option.noConfusion hstep
      · next hdis =>
        split at hstep
        · split at hstep
          · rw [objGet_objSet_self] at hstep
            injection hstep with h1
            have h2 : nr.2.disabled = true := by rw [h1]; exact hd
            exact hdis h2
          · rw [objGet_objSet_self] at hstep
            injection hstep with h1
            have h2 : nr.2.disabled = true := by
              rw [← h1] at hd
              simpa using hd
            exact hdis h2
        · rw [objGet_objSet_self] at hstep
          injection hstep with h1
          have h2 : nr.2.disabled = true := by rw [h1]; exact hd
          exact hdis h2
    · refine ⟨?_, ?_⟩
      · rw [← mergeStep_get_ne acc nr n hk]; exact hstep
      · simp only [objKeys, List.map_cons, List.mem_cons, not_or]
        exact ⟨fun hc => hk hc.symm, hnot⟩

theorem mergeStep_eq (acc : ReferenceIndex) (n : String) (p : ReferenceEntry) :
    mergeStep acc (n, p) =
      if p.disabled then objDelete acc n
      else
        match objGet acc n with
        | some existing =>
          if p.overrideTriggers then objSet acc n p
          else objSet acc n { p with triggers := mergeTriggers existing.triggers p.triggers }
        | none => objSet acc n p := rfl

/-- Entry used to exhibit a disabled user-level module that the project
catalog never mentions. -/
def c1DisabledEntry : ReferenceEntry :=
  { name := "Legacy", path := "refs/legacy.md", description := none
    triggers := ⟨none, none, none, some ["legacy"]⟩
    priority := 50, maxTokens := 2000, disabled := true, overrideTriggers := false }

def c1UserIndex : ReferenceIndex := [("legacy", c1DisabledEntry)]

/-- C1 counterexample: with a user catalog whose only entry is disabled and
no project catalog, mergeIndices keeps the disabled entry, so the merged
catalog does contain an entry whose disabled field is true. -/
theorem mergeIndices_disabled_survives_counterexample :
    (mergeIndices (some c1UserIndex) none).any (fun e => e.2.disabled) = true := rfl

/-- C1 (amended): a disabled entry can survive the merge only by coming
from the user catalog under a name the project catalog never mentions;
every name the project layer touches is either removed (its project entry
is disabled) or rebound to a non-disabled project-derived entry. -/
theorem mergeIndices_disabled_only_from_unmentioned_user
    (userIndex projectIndex : Option ReferenceIndex) (n : String) (e : ReferenceEntry)
    (hget : objGet (mergeIndices userIndex projectIndex) n = some e)
    (hd : e.disabled = true) :
    objGet (userIndex.getD []) n = some e ∧
      ∀ pIdx, projectIndex = some pIdx → n ∉ objKeys pIdx := by
  unfold mergeIndices at hget
  rcases projectIndex with _ | pIdx
  · refine ⟨hget, ?_⟩
    intro pIdx hp
    cases hp
  · rcases mergeLoop_disabled_source pIdx _ n e hget hd with ⟨h1, h2⟩
    refine ⟨h1, ?_⟩
    intro pIdx2 hp
    injection hp with h3
    rw [← h3]
    exact h2

theorem mergeIndices_disabled_only_from_unmentioned_user_witness :
    objGet c1UserIndex "legacy" = some c1DisabledEntry :=
  (mergeIndices_disabled_only_from_unmentioned_user (some c1UserIndex)
    (some ([] : ReferenceIndex)) "legacy" c1DisabledEntry (by rfl) (by rfl)).1

/-- C2: when a name is present in both layers and the project entry sets
neither disabled nor overrideTriggers, the merged entry keeps every
non-trigger field of the project entry and each of the four trigger lists
is the user list concatenated with the project list, in that order,
duplicates preserved. -/
theorem mergeIndices_both_layers_concat
    (userIndex pIdx : ReferenceIndex) (n : String) (u p : ReferenceEntry)
    (hnodup : (pIdx.map Prod.fst).Nodup)
    (hu : objGet userIndex n = some u)
    (hp : (n, p) ∈ pIdx)
    (hd : p.disabled = false) (ho : p.overrideTriggers = false) :
    objGet (mergeIndices (some userIndex) (some pIdx)) n =
      some { p with triggers :=
        { filePatterns :=
            some (u.triggers.filePatterns.getD [] ++ p.triggers.filePatterns.getD [])
          imports :=
            some (u.triggers.imports.getD [] ++ p.triggers.imports.getD [])
          dependencies :=
            some (u.triggers.dependencies.getD [] ++ p.triggers.dependencies.getD [])
          keywords :=
            some (u.triggers.keywords.getD [] ++ p.triggers.keywords.getD []) } } := by
  obtain ⟨l1, l2, rfl⟩ := List.append_of_mem hp
  rw [List.map_append, List.map_cons] at hnodup
  rcases List.nodup_append.mp hnodup with ⟨h1, h2, hdisj⟩
  have hn1 : n ∉ l1.map Prod.fst := fun hmem => hdisj hmem (List.mem_cons_self _ _)
  have hn2 : n ∉ l2.map Prod.fst := (List.nodup_cons.mp h2).1
  unfold mergeIndices
  show objGet (List.foldl mergeStep userIndex (l1 ++ (n, p) :: l2)) n = _
  rw [List.foldl_append, List.foldl_cons]
  have hacc1 : objGet (List.foldl mergeStep userIndex l1) n = some u := by
    rw [mergeLoop_get_notmem l1 userIndex n (by simpa [objKeys] using hn1)]
    exact hu
  have hstep : mergeStep (List.foldl mergeStep userIndex l1) (n, p)
      = objSet (List.foldl mergeStep userIndex l1) n
          { p with triggers := mergeTriggers u.triggers p.triggers } := by
    rw [mergeStep_eq, if_neg (by simp [hd]), hacc1]
    show (if p.overrideTriggers = true then objSet (List.foldl mergeStep userIndex l1) n p
        else objSet (List.foldl mergeStep userIndex l1) n
          { p with triggers := mergeTriggers u.triggers p.triggers }) = _
    rw [if_neg (by simp [ho])]
  rw [mergeLoop_get_notmem l2 _ n (by simpa [objKeys] using hn2), hstep,
    objGet_objSet_self]
  rfl

/-- User-level and project-level variants of the same module, as in the
Scenario 1 of the specification. -/
def c2UserEntry : ReferenceEntry :=
  { name := "Auth", path := "user/references/auth.md", description := none
    triggers := ⟨none, none, none, some ["login"]⟩
    priority := 80, maxTokens := 2000, disabled := false, overrideTriggers := false }

def c2ProjectEntry : ReferenceEntry :=
  { name := "auth", path := "project/references/auth.md", description := none
    triggers := ⟨none, none, none, some ["oauth"]⟩
    priority := 90, maxTokens := 2000, disabled := false, overrideTriggers := false }

theorem mergeIndices_both_layers_concat_witness :
    objGet (mergeIndices (some [("auth", c2UserEntry)])
        (some [("auth", c2ProjectEntry)])) "auth" =
      some { c2ProjectEntry with triggers :=
        { filePatterns := some [], imports := some [], dependencies := some []
          keywords := some ["login", "oauth"] } } :=
  mergeIndices_both_layers_concat [("auth", c2UserEntry)] [("auth", c2ProjectEntry)]
    "auth" c2UserEntry c2ProjectEntry (by simp) (by rfl) (by simp) (by rfl) (by rfl)

/-! Front-matter Parser (parseFrontmatter). The parser is a line fold over
an explicit state; a thrown TypeError (strict-mode property write on a
primitive) is an Except error. -/

def fourTriggerNames : List String :=
  ["filePatterns", "imports", "dependencies", "keywords"]

/-- Parser state: the frontmatter object under construction, the heap of
block arrays (currentArray holds an aliasing reference into it), the last
key that opened a nested context, and the active array reference. -/
structure FMState : Type where
  fm : List (String × FMValue)
  arrays : List (List String)
  currentKey : String
  currentArray : Option Nat
deriving DecidableEq, Repr

def initFMState : FMState := ⟨[], [], "", none⟩

/-- Write a property on the value stored under triggers; primitives reject
the write with a TypeError (none), objects and arrays accept it. -/
def setTrigProp (v : FMValue) (k : String) (tv : TrigVal) : Option FMValue :=
  match v with
  | .obj fields => some (.obj (objSet fields k tv))
  | .arr items props => some (.arr items (objSet props k tv))
  | _ => none

/-- The key/value split of a line: the part before the first colon and the
part after it, both trimmed, provided the colon index is positive. -/
def lineKV (line : String) : Option (String × String) :=
  match colonIndex line with
  | some j =>
    if j > 0 then some (jsTrim (jsTake line j), jsTrim (jsDrop line (j + 1)))
    else none
  | none => none

/-- One line of the frontmatter parser loop. -/
def pfStep (w : World) (st : FMState) (line : String) : Except Unit FMState :=
  let trimmed := jsTrim line
  if trimmed == "" || jsStartsWith trimmed "#" then .ok st
  else if jsStartsWith trimmed "- " then
    match st.currentArray with
    | some i =>
      .ok { st with arrays :=
        st.arrays.set i (st.arrays.getD i [] ++ [stripQuotes (jsTrim (jsDrop trimmed 2))]) }
    | none => .ok st
  else
    match lineKV line with
    | none => .ok st
    | some (key, value) =>
      if value == "" || value == "\x7b" then
        if fourTriggerNames.contains key then
          let n := st.arrays.length
          let st1 : FMState :=
            { st with arrays := st.arrays ++ [[]], currentArray := some n, currentKey := key }
          let fm1 := if fmTruthy w (objGet st1.fm "triggers") then st1.fm
            else objSet st1.fm "triggers" (.obj [])
          match objGet fm1 "triggers" with
          | some tv =>
            match setTrigProp tv key (.href n) with
            | some tv2 => .ok { st1 with fm := objSet fm1 "triggers" tv2 }
            | none => .error ()
          | none => .error ()
        else if key == "triggers" then
          .ok { st with fm := objSet st.fm "triggers" (.obj []), currentKey := key }
        else .ok { st with currentKey := key }
      else
        let st0 : FMState := { st with currentArray := none }
        let cleanValue := stripQuotes value
        if jsStartsWith cleanValue "[" && jsEndsWith cleanValue "]" then
          let items := (jsSplit (jsDropRight (jsDrop cleanValue 1) 1) ",").map
            (fun s => stripQuotes (jsTrim s))
          if st0.currentKey == "triggers" || fmTruthy w (objGet st0.fm "triggers") then
            let fm1 := if fmTruthy w (objGet st0.fm "triggers") then st0.fm
              else objSet st0.fm "triggers" (.obj [])
            match objGet fm1 "triggers" with
            | some tv =>
              match setTrigProp tv key (.inline items) with
              | some tv2 => .ok { st0 with fm := objSet fm1 "triggers" tv2 }
              | none => .error ()
            | none => .error ()
          else .ok { st0 with fm := objSet st0.fm key (.arr items []) }
        else if cleanValue == "true" then
          .ok { st0 with fm := objSet st0.fm key (.bool true) }
        else if cleanValue == "false" then
          .ok { st0 with fm := objSet st0.fm key (.bool false) }
        else if w.isNumeric cleanValue then
          .ok { st0 with fm := objSet st0.fm key (.num cleanValue) }
        else .ok { st0 with fm := objSet st0.fm key (.str cleanValue) }

/-- Split of the document by the frontmatter regex: an opening dashed line
and the earliest closing dashed line, non-greedy. -/
def splitFrontmatter (content : String) : Option (String × String) :=
  if jsStartsWith content "---\n" then
    match jsSplit (jsDrop content 4) "\n---\n" with
    | [] => none
    | [_] => none
    | y :: rest => some (y, jsJoin "\n---\n" rest)
  else none

/-- Result of parseFrontmatter: the frontmatter object, the heap of block
arrays its references point into, and the body text. -/
structure ParsedDoc : Type where
  fm : List (String × FMValue)
  arrays : List (List String)
  body : String
deriving DecidableEq, Repr

/-- Parse YAML frontmatter from markdown content (parseFrontmatter). A
document without a recognizable delimited block yields an empty object and
the untouched original text as body; otherwise the block is parsed line by
line and the remaining body is trimmed. -/
def parseFrontmatter (w : World) (content : String) : Except Unit ParsedDoc :=
  match splitFrontmatter content with
  | none => .ok ⟨[], [], content⟩
  | some (yaml, body) =>
    match (jsSplit yaml "\n").foldlM (pfStep w) initFMState with
    | .ok st => .ok ⟨st.fm, st.arrays, jsTrim body⟩
    | .error e => .error e

/-- The frontmatter lines of a document, as the parser sees them. -/
def yamlLines (content : String) : List String :=
  match splitFrontmatter content with
  | some (yaml, _) => jsSplit yaml "\n"
  | none => []

/-! Placement of trigger-kind keys in the parsed frontmatter (the subject
of the nesting claim about the parser). -/

theorem trigName_ne_triggers (k : String) (hk : k ∈ fourTriggerNames) :
    k ≠ "triggers" := by
  fin_cases hk <;> decide

/-- A line is in block form for the trigger-kind keys: if it is a colon
line whose key is one of the four trigger-kind names, its value part is
empty (or an opening brace), the shape that opens a nested block array. -/
def blockFormLine (line : String) : Bool :=
  match lineKV line with
  | some kv =>
    !(fourTriggerNames.contains kv.1) || (kv.2 == "" || kv.2 == "\x7b")
  | none => true

theorem pfStep_top_inv (w : World) (st : FMState) (line : String) (st' : FMState)
    (hline : blockFormLine line = true)
    (hstep : pfStep w st line = .ok st')
    (hinv : ∀ k ∈ fourTriggerNames, objGet st.fm k = none) :
    ∀ k ∈ fourTriggerNames, objGet st'.fm k = none := by
  intro k hk
  have hkt : ("triggers" : String) ≠ k := fun h => trigName_ne_triggers k hk h.symm
  simp only [pfStep] at hstep
  split at hstep
  · injection hstep with h
    rw [← h]
    exact hinv k hk
  · split at hstep
    · split at hstep
      · injection hstep with h
        rw [← h]
        exact hinv k hk
      · injection hstep with h
        rw [← h]
        exact hinv k hk
    · split at hstep
      · injection hstep with h
        rw [← h]
        exact hinv k hk
      · next key value heq =>
        unfold blockFormLine at hline
        rw [heq] at hline
        have hline2 : (!(fourTriggerNames.contains key)
            || (value == "" || value == "\x7b")) = true := hline
        split at hstep
        · split at hstep
          · split at hstep
            · split at hstep
              · injection hstep with h
                rw [← h]
                show objGet (objSet _ "triggers" _) k = none
                rw [objGet_objSet_ne _ _ _ _ hkt]
                split
                · exact hinv k hk
                · rw [objGet_objSet_ne _ _ _ _ hkt]
                  exact hinv k hk
              · exact Except.noConfusion hstep
            · exact Except.noConfusion hstep
          · split at hstep
            · injection hstep with h
              rw [← h]
              show objGet (objSet _ "triggers" _) k = none
              rw [objGet_objSet_ne _ _ _ _ hkt]
              exact hinv k hk
            · injection hstep with h
              rw [← h]
              exact hinv k hk
        · next hval =>
          have hkey : (fourTriggerNames.contains key) = false := by
            rcases hcon : fourTriggerNames.contains key with _ | _
            · rfl
            · rw [hcon] at hline2
              simp only [Bool.not_true, Bool.false_or] at hline2
              rw [hline2] at hval
              exact absurd rfl hval
          have hkne : key ≠ k := by
            intro hek
            rw [hek] at hkey
            have h2 : fourTriggerNames.contains k = true :=
              List.elem_eq_true_of_mem hk
            rw [h2] at hkey
            exact Bool.noConfusion hkey
          split at hstep
          · split at hstep
            · split at hstep
              · split at hstep
                · injection hstep with h
                  rw [← h]
                  show objGet (objSet _ "triggers" _) k = none
                  rw [objGet_objSet_ne _ _ _ _ hkt]
                  split
                  · exact hinv k hk
                  · rw [objGet_objSet_ne _ _ _ _ hkt]
                    exact hinv k hk
                · exact Except.noConfusion hstep
              · exact Except.noConfusion hstep
            · injection hstep with h
              rw [← h]
              show objGet (objSet _ key _) k = none
              rw [objGet_objSet_ne _ _ _ _ hkne]
              exact hinv k hk
          · split at hstep
            · injection hstep with h
              rw [← h]
              show objGet (objSet _ key _) k = none
              rw [objGet_objSet_ne _ _ _ _ hkne]
              exact hinv k hk
            · split at hstep
              · injection hstep with h
                rw [← h]
                show objGet (objSet _ key _) k = none
                rw [objGet_objSet_ne _ _ _ _ hkne]
                exact hinv k hk
              · split at hstep
                · injection hstep with h
                  rw [← h]
                  show objGet (objSet _ key _) k = none
                  rw [objGet_objSet_ne _ _ _ _ hkne]
                  exact hinv k hk
                · injection hstep with h
                  rw [← h]
                  show objGet (objSet _ key _) k = none
                  rw [objGet_objSet_ne _ _ _ _ hkne]
                  exact hinv k hk

theorem pfFold_top_inv (w : World) (lines : List String) (st st' : FMState)
    (hfold : lines.foldlM (pfStep w) st = .ok st')
    (hlines : ∀ line ∈ lines, blockFormLine line = true)
    (hinv : ∀ k ∈ fourTriggerNames, objGet st.fm k = none) :
    ∀ k ∈ fourTriggerNames, objGet st'.fm k = none := by
  induction lines generalizing st with
  | nil =>
    injection hfold with h
    rw [← h]
    exact hinv
  | cons line t ih =>
    rw [List.foldlM_cons] at hfold
    rcases hs : pfStep w st line with e | st1
    · rw [hs] at hfold
      exact Except.noConfusion hfold
    · rw [hs] at hfold
      exact ih st1 hfold (fun l hl => hlines l (List.mem_cons_of_mem _ hl))
        (pfStep_top_inv w st line st1 (hlines line (List.mem_cons_self _ _)) hs hinv)

/-- Concrete world for closed evaluations of the parser (its oracles are
never consulted on the inputs used). -/
def plainWorld : World :=
  { existsSync := fun _ => false, readFile := fun _ => none, readdir := fun _ => []
    parseJson := fun _ => none, parsePkg := fun _ => none
    isNumeric := fun _ => false, numIsZero := fun _ => false
    fmNumber := fun _ => 0, globScan := fun _ _ => ([], false)
    grepOut := fun _ _ => none }

/-- C6 counterexample: the document sets a trigger-kind key with an inline
bracket value and no triggers context, and the parsed structure carries
that key at top level, with no triggers field at all. -/
theorem parseFrontmatter_trigger_key_toplevel_counterexample :
    parseFrontmatter plainWorld "---\nkeywords: [oauth]\n---\nbody" =
        .ok ⟨[("keywords", FMValue.arr ["oauth"] [])], [], "body"⟩ ∧
      (match parseFrontmatter plainWorld "---\nkeywords: [oauth]\n---\nbody" with
        | .ok pd => objGet pd.fm "keywords" ≠ none ∧ objGet pd.fm "triggers" = none
        | .error _ => False) := by
  constructor
  · rfl
  · show (some (FMValue.arr ["oauth"] []) ≠ none ∧ (none : Option FMValue) = none)
    exact ⟨Option.noConfusion, rfl⟩

/-- C6 (amended): a trigger-kind key given in block-array form (an empty
value, or an opening brace, on its key line) is placed under the triggers
object and never appears as a top-level key of the parsed structure,
whether or not a triggers line was seen; when every trigger-kind key of
the document is in block form, no trigger-kind name occurs top-level. A
trigger-kind key given a non-empty inline value, however, can land at
top level (see the counterexample). -/
theorem parseFrontmatter_blockform_not_toplevel (w : World) (content : String)
    (pd : ParsedDoc) (hok : parseFrontmatter w content = .ok pd)
    (hblock : (yamlLines content).all blockFormLine = true) :
    ∀ k ∈ fourTriggerNames, objGet pd.fm k = none := by
  unfold parseFrontmatter at hok
  unfold yamlLines at hblock
  rcases hsp : splitFrontmatter content with _ | ⟨yaml, body⟩
  · rw [hsp] at hok
    injection hok with h
    rw [← h]
    intro k _
    rfl
  · rw [hsp] at hok hblock
    have hok2 : (match List.foldlM (pfStep w) initFMState (jsSplit yaml "\n") with
        | Except.ok st => Except.ok (⟨st.fm, st.arrays, jsTrim body⟩ : ParsedDoc)
        | Except.error e => Except.error e) = Except.ok pd := hok
    have hblock2 : (jsSplit yaml "\n").all blockFormLine = true := hblock
    rcases hfold : List.foldlM (pfStep w) initFMState (jsSplit yaml "\n") with e | st
    · rw [hfold] at hok2
      exact Except.noConfusion hok2
    · rw [hfold] at hok2
      have hok3 : Except.ok (⟨st.fm, st.arrays, jsTrim body⟩ : ParsedDoc)
          = Except.ok pd := hok2
      injection hok3 with h
      rw [← h]
      exact pfFold_top_inv w (jsSplit yaml "\n") initFMState st hfold
        (by
          intro l hl
          exact List.all_eq_true.mp hblock2 l hl)
        (fun k _ => rfl)

theorem parseFrontmatter_blockform_not_toplevel_witness :
    objGet (ParsedDoc.fm ⟨[("name", FMValue.str "Auth"),
        ("triggers", FMValue.obj [("keywords", TrigVal.href 0)])],
      [["login"]], "body"⟩) "keywords" = none :=
  parseFrontmatter_blockform_not_toplevel plainWorld
    "---\nname: Auth\ntriggers:\nkeywords:\n- login\n---\nbody"
    ⟨[("name", FMValue.str "Auth"),
        ("triggers", FMValue.obj [("keywords", TrigVal.href 0)])],
      [["login"]], "body"⟩
    (by rfl) (by rfl) "keywords" (by decide)

/-! Trigger Evaluator: checkFilePatterns, checkImports, checkDependencies,
checkKeywords and detectModules. -/

/-- Exclusion test of the scan loop: paths containing the node_modules or
.git substrings are skipped. -/
def cfpExcluded (f : String) : Bool :=
  jsIncludes f "node_modules" || jsIncludes f ".git"

/-- The inner scan loop over the files one glob yields: push paths that
pass the exclusion test and break once three matches are accumulated. The
Bool says whether the loop broke early (and so never reached the point
where the iterator could throw). -/
def scanInner (acc : List String) : List String → List String × Bool
  | [] => (acc, false)
  | f :: fs =>
    if cfpExcluded f then scanInner acc fs
    else
      let acc2 := acc ++ [f]
      if acc2.length ≥ 3 then (acc2, true) else scanInner acc2 fs

/-- The outer pattern loop of checkFilePatterns. When the scan of a
pattern ends by throwing, the caught exception skips the break check, so
the loop continues into the next pattern with the matches kept so far. -/
def cfpLoop (w : World) (cwd : String) (acc : List String) :
    List String → List String
  | [] => acc
  | p :: ps =>
    let scanned := w.globScan p cwd
    let inner := scanInner acc scanned.1
    if inner.2 then inner.1
    else if scanned.2 then cfpLoop w cwd inner.1 ps
    else if inner.1.length > 0 then inner.1
    else cfpLoop w cwd inner.1 ps

/-- Check file patterns against cwd (checkFilePatterns). -/
def checkFilePatterns (w : World) (patterns : List String) (cwd : String) :
    List String :=
  cfpLoop w cwd [] patterns

/-- Escape special regex characters (escapeRegex). -/
def escapeRegexChar (c : Char) : String :=
  if (".*+?^$\x7b\x7d()|[]\\".toList.contains c) then String.mk ['\\', c]
  else String.mk [c]

def escapeRegex (s : String) : String :=
  String.join (s.toList.map escapeRegexChar)

/-- Check for import patterns in source files (checkImports). The grep
child process is the grepOut oracle; the evidence loop is kept verbatim,
including the vacuous some-disjunct that makes it return the first
pattern whenever the output is non-empty. -/
def checkImports (w : World) (patterns : List String) (cwd : String) :
    Option String :=
  let importPattern := jsJoin "|" (patterns.map escapeRegex)
  match w.grepOut importPattern cwd with
  | none => none
  | some output =>
    if !(jsTrim output == "") then
      match patterns.find? (fun p =>
          jsIncludes output p || patterns.any (fun _ => jsLength output > 0)) with
      | some p => some p
      | none => patterns.head?
    else none

/-- Check dependencies in package.json, then requirements.txt
(checkDependencies). parsePkg models JSON.parse plus the spread-merge of
the three dependency sections; a dependency matches when its looked-up
version value is truthy. -/
def checkDependencies (w : World) (packages : List String) (cwd : String) :
    Option String :=
  let fromPkg : Option String :=
    let pkgPath := pathJoin cwd "package.json"
    if w.existsSync pkgPath then
      match w.readFile pkgPath with
      | some content =>
        match w.parsePkg content with
        | some allDeps => packages.find? (fun p => strTruthy (objGet allDeps p))
        | none => none
      | none => none
    else none
  match fromPkg with
  | some p => some p
  | none =>
    let reqPath := pathJoin cwd "requirements.txt"
    if w.existsSync reqPath then
      match w.readFile reqPath with
      | some content =>
        packages.find? (fun p => jsIncludes (jsToLower content) (jsToLower p))
      | none => none
    else none

/-- Check keywords in prompt text (checkKeywords). -/
def checkKeywords (keywords : List String) (prompt : String) : Option String :=
  let promptLower := jsToLower prompt
  keywords.find? (fun k => jsIncludes promptLower (jsToLower k))

/-- The evidence strings one entry accumulates, in the order the four
trigger kinds are checked; a kind contributes only when its check result
is truthy. -/
def evalEntry (w : World) (cwd : String) (prompt : Option String)
    (ref : ReferenceEntry) : List String :=
  let m1 : List String :=
    match ref.triggers.filePatterns with
    | some pats =>
      if pats.length == 0 then []
      else
        let fileMatches := checkFilePatterns w pats cwd
        if fileMatches.length > 0 then
          ["files: " ++ jsJoin ", " (fileMatches.take 2)]
        else []
    | none => []
  let m2 : List String :=
    match ref.triggers.imports with
    | some pats =>
      if pats.length == 0 then []
      else
        match checkImports w pats cwd with
        | some s => if s == "" then [] else ["import: " ++ s]
        | none => []
    | none => []
  let m3 : List String :=
    match ref.triggers.dependencies with
    | some pkgs =>
      if pkgs.length == 0 then []
      else
        match checkDependencies w pkgs cwd with
        | some s => if s == "" then [] else ["dependency: " ++ s]
        | none => []
    | none => []
  let m4 : List String :=
    match ref.triggers.keywords with
    | some kws =>
      if kws.length == 0 then []
      else
        match prompt with
        | some pr =>
          if pr == "" then []
          else
            match checkKeywords kws pr with
            | some s => if s == "" then [] else ["keyword: " ++ s]
            | none => []
        | none => []
    | none => []
  m1 ++ m2 ++ m3 ++ m4

/-- The DetectionResult built for one catalog entry. -/
def mkResult (nk : String × ReferenceEntry) (m : List String) : DetectionResult :=
  { module := nk.1, path := nk.2.path, priority := nk.2.priority
    maxTokens := nk.2.maxTokens, triggers := m }

/-- The unsorted result list, in catalog encounter order. -/
def preDetect (w : World) (index : ReferenceIndex) (cwd : String)
    (prompt : Option String) : List DetectionResult :=
  index.filterMap fun nk =>
    let m := evalEntry w cwd prompt nk.2
    if m.isEmpty then none else some (mkResult nk m)

/-- Stable insertion for the descending-priority order: an element goes
before the first list element whose priority is not larger, so earlier
elements win ties, exactly as the stable JS sort with the comparator
b.priority minus a.priority. -/
def sortStep (x : DetectionResult) : List DetectionResult → List DetectionResult
  | [] => [x]
  | y :: ys => if y.priority ≤ x.priority then x :: y :: ys else y :: sortStep x ys

def sortDesc : List DetectionResult → List DetectionResult
  | [] => []
  | x :: xs => sortStep x (sortDesc xs)

/-- Detect which modules are relevant for the current context
(detectModules): evaluate every entry and sort by priority, highest
first, with the stable sort of Array.prototype.sort. -/
def detectModules (w : World) (index : ReferenceIndex) (cwd : String)
    (prompt : Option String) : List DetectionResult :=
  sortDesc (preDetect w index cwd prompt)

theorem scanInner_mem (files : List String) (acc : List String) (f : String)
    (hf : f ∈ (scanInner acc files).1) : f ∈ acc ∨ cfpExcluded f = false := by
  induction files generalizing acc with
  | nil => exact Or.inl hf
  | cons g gs ih =>
    simp only [scanInner] at hf
    split at hf
    · exact ih acc hf
    · next hex =>
      split at hf
      · rcases List.mem_append.mp hf with h | h
        · exact Or.inl h
        · rw [List.mem_singleton.mp h]
          exact Or.inr (by simpa using hex)
      · rcases ih (acc ++ [g]) hf with h | h
        · rcases List.mem_append.mp h with h2 | h2
          · exact Or.inl h2
          · rw [List.mem_singleton.mp h2]
            exact Or.inr (by simpa using hex)
        · exact Or.inr h

theorem scanInner_spec (files acc : List String) (hlen : acc.length ≤ 2) :
    ((scanInner acc files).2 = false ∧ (scanInner acc files).1.length ≤ 2) ∨
    ((scanInner acc files).2 = true ∧ (scanInner acc files).1.length = 3) := by
  induction files generalizing acc with
  | nil => exact Or.inl ⟨rfl, hlen⟩
  | cons g gs ih =>
    simp only [scanInner]
    split
    · exact ih acc hlen
    · split
      · next h3 =>
        simp only [List.length_append, List.length_singleton] at h3
        right
        refine ⟨rfl, ?_⟩
        simp only [List.length_append, List.length_singleton]
        omega
      · next h3 =>
        apply ih
        simp only [List.length_append, List.length_singleton]
        simp only [List.length_append, List.length_singleton] at h3
        omega

theorem cfpLoop_spec (w : World) (cwd : String) (ps : List String)
    (acc : List String) (hlen : acc.length ≤ 2)
    (hmem : ∀ f ∈ acc, cfpExcluded f = false) :
    (∀ f ∈ cfpLoop w cwd acc ps, cfpExcluded f = false) ∧
    (cfpLoop w cwd acc ps).length ≤ 3 := by
  induction ps generalizing acc with
  | nil =>
    refine ⟨hmem, ?_⟩
    show acc.length ≤ 3
    omega
  | cons p t ih =>
    simp only [cfpLoop]
    have hmem2 : ∀ f ∈ (scanInner acc (w.globScan p cwd).1).1,
        cfpExcluded f = false := by
      intro f hf
      rcases scanInner_mem _ acc f hf with h | h
      · exact hmem f h
      · exact h
    rcases scanInner_spec (w.globScan p cwd).1 acc hlen with ⟨hb, hl⟩ | ⟨hb, hl⟩
    · rw [hb]
      simp only [Bool.false_eq_true, if_false]
      split
      · exact ih _ hl hmem2
      · split
        · exact ⟨hmem2, by omega⟩
        · exact ih _ hl hmem2
    · rw [hb]
      simp only [if_true]
      exact ⟨hmem2, by omega⟩

theorem cfpLoop_first_match (w : World) (cwd p : String) (ps files : List String)
    (hscan : w.globScan p cwd = (files, false))
    (hne : (scanInner ([] : List String) files).1 ≠ []) :
    cfpLoop w cwd [] (p :: ps) = (scanInner ([] : List String) files).1 := by
  have hbody : cfpLoop w cwd [] (p :: ps) =
      (let scanned := w.globScan p cwd
       let inner := scanInner [] scanned.1
       if inner.2 then inner.1
       else if scanned.2 then cfpLoop w cwd inner.1 ps
       else if inner.1.length > 0 then inner.1
       else cfpLoop w cwd inner.1 ps) := rfl
  rw [hbody, hscan]
  show (if (scanInner ([] : List String) files).2 = true
        then (scanInner ([] : List String) files).1
       else if false = true then cfpLoop w cwd (scanInner ([] : List String) files).1 ps
       else if (scanInner ([] : List String) files).1.length > 0
        then (scanInner ([] : List String) files).1
       else cfpLoop w cwd (scanInner ([] : List String) files).1 ps) = _
  by_cases hb : (scanInner ([] : List String) files).2 = true
  · rw [if_pos hb]
  · rw [if_neg hb, if_neg (by simp),
      if_pos (List.length_pos.mpr hne)]

/-- C7 (amended): the scan never returns a path containing the substrings
of build-output or version-control directories, at most three paths are
retained, and the loop stops at the first pattern whose scan completes
without an error and yields a match; a pattern whose scan throws after
yielding matches, however, does not stop the loop (see the
counterexample). -/
theorem checkFilePatterns_spec (w : World) (patterns : List String) (cwd : String) :
    (∀ f ∈ checkFilePatterns w patterns cwd, cfpExcluded f = false) ∧
    (checkFilePatterns w patterns cwd).length ≤ 3 ∧
    (∀ p ps files, patterns = p :: ps → w.globScan p cwd = (files, false) →
      (scanInner ([] : List String) files).1 ≠ [] →
      checkFilePatterns w patterns cwd = (scanInner ([] : List String) files).1) := by
  refine ⟨(cfpLoop_spec w cwd patterns [] (by simp) (by simp)).1,
          (cfpLoop_spec w cwd patterns [] (by simp) (by simp)).2, ?_⟩
  intro p ps files hpat hscan hne
  subst hpat
  exact cfpLoop_first_match w cwd p ps files hscan hne

/-- World whose first glob yields one match and then throws, while the
second glob completes normally. -/
def c7ThrowWorld : World :=
  { plainWorld with globScan := fun p _ =>
      if p == "p1" then (["pages/a.ts"], true) else (["pages/b.ts"], false) }

/-- C7 counterexample: the first pattern yields a match (its filtered scan
is the non-empty list shown), yet the returned evidence also contains the
path produced by the second pattern, because the caught mid-scan error
skipped the stop check: the scan did not stop at the first pattern that
yielded a match. -/
theorem checkFilePatterns_no_stop_counterexample :
    checkFilePatterns c7ThrowWorld ["p1", "p2"] "." = ["pages/a.ts", "pages/b.ts"] ∧
    (scanInner ([] : List String) ["pages/a.ts"]).1 = ["pages/a.ts"] := by
  exact ⟨rfl, rfl⟩

/-- World with a single well-behaved glob scan. -/
def c7PlainScanWorld : World :=
  { plainWorld with globScan := fun p _ =>
      if p == "g1" then (["src/a.ts"], false) else ([], false) }

theorem checkFilePatterns_spec_witness :
    checkFilePatterns c7PlainScanWorld ["g1", "g2"] "." = ["src/a.ts"] :=
  (checkFilePatterns_spec c7PlainScanWorld ["g1", "g2"] ".").2.2 "g1" ["g2"]
    ["src/a.ts"] rfl rfl (by decide)

theorem mem_sortStep (x z : DetectionResult) (l : List DetectionResult) :
    z ∈ sortStep x l ↔ z = x ∨ z ∈ l := by
  induction l with
  | nil => simp [sortStep]
  | cons y ys ih =>
    simp only [sortStep]
    split
    · simp [List.mem_cons]
    · simp only [List.mem_cons, ih]
      tauto

theorem sortStep_pairwise (x : DetectionResult) (l : List DetectionResult)
    (hl : l.Pairwise (fun a b => b.priority ≤ a.priority)) :
    (sortStep x l).Pairwise (fun a b => b.priority ≤ a.priority) := by
  induction l with
  | nil => simp [sortStep]
  | cons y ys ih =>
    simp only [sortStep]
    split
    · next hle =>
      refine List.Pairwise.cons ?_ hl
      intro z hz
      rcases List.mem_cons.mp hz with rfl | hz2
      · exact hle
      · have h2 := (List.pairwise_cons.mp hl).1 z hz2
        omega
    · next hgt =>
      have hys := List.pairwise_cons.mp hl
      refine List.Pairwise.cons ?_ (ih hys.2)
      intro z hz
      rcases (mem_sortStep x z ys).mp hz with rfl | hz2
      · omega
      · exact hys.1 z hz2

theorem mem_sortDesc (z : DetectionResult) (l : List DetectionResult) :
    z ∈ sortDesc l ↔ z ∈ l := by
  induction l with
  | nil => simp [sortDesc]
  | cons x xs ih =>
    simp [sortDesc, mem_sortStep, ih, List.mem_cons]

theorem sortDesc_pairwise (l : List DetectionResult) :
    (sortDesc l).Pairwise (fun a b => b.priority ≤ a.priority) := by
  induction l with
  | nil => simp [sortDesc]
  | cons x xs ih => exact sortStep_pairwise x _ ih

theorem sortStep_filter (x : DetectionResult) (l : List DetectionResult) (p : Int) :
    (sortStep x l).filter (fun r => decide (r.priority = p)) =
      if x.priority = p
      then x :: l.filter (fun r => decide (r.priority = p))
      else l.filter (fun r => decide (r.priority = p)) := by
  induction l with
  | nil =>
    by_cases hxp : x.priority = p <;> simp [sortStep, List.filter, hxp]
  | cons y ys ih =>
    simp only [sortStep]
    split
    · by_cases hxp : x.priority = p <;>
        by_cases hyp : y.priority = p <;>
        simp [List.filter_cons, hxp, hyp]
    · next hgt =>
      by_cases hyp : y.priority = p
      · by_cases hxp : x.priority = p
        · exfalso
          omega
        · simp [List.filter_cons, hyp, hxp, ih]
      · by_cases hxp : x.priority = p <;>
          simp [List.filter_cons, hyp, hxp, ih]

theorem sortDesc_filter (l : List DetectionResult) (p : Int) :
    (sortDesc l).filter (fun r => decide (r.priority = p)) =
      l.filter (fun r => decide (r.priority = p)) := by
  induction l with
  | nil => rfl
  | cons x xs ih =>
    simp only [sortDesc, sortStep_filter, ih, List.filter_cons]
    by_cases hxp : x.priority = p <;> simp [hxp]

theorem mem_preDetect (w : World) (index : ReferenceIndex) (cwd : String)
    (prompt : Option String) (r : DetectionResult) :
    r ∈ preDetect w index cwd prompt ↔
      ∃ nk ∈ index, evalEntry w cwd prompt nk.2 ≠ [] ∧
        r = mkResult nk (evalEntry w cwd prompt nk.2) := by
  unfold preDetect
  rw [List.mem_filterMap]
  constructor
  · rintro ⟨nk, hmem, hf⟩
    have hf2 : (if (evalEntry w cwd prompt nk.2).isEmpty = true then none
        else some (mkResult nk (evalEntry w cwd prompt nk.2))) = some r := hf
    by_cases he : (evalEntry w cwd prompt nk.2).isEmpty = true
    · rw [if_pos he] at hf2
      exact absurd hf2 (by simp)
    · rw [if_neg he] at hf2
      injection hf2 with h
      refine ⟨nk, hmem, ?_, h.symm⟩
      simpa [List.isEmpty_iff] using he
  · rintro ⟨nk, hmem, hne, rfl⟩
    refine ⟨nk, hmem, ?_⟩
    show (if (evalEntry w cwd prompt nk.2).isEmpty = true then none
        else some (mkResult nk (evalEntry w cwd prompt nk.2))) = some _
    rw [if_neg (by simpa [List.isEmpty_iff] using hne)]

/-- C4: the detection list holds exactly the catalog entries for which at
least one trigger kind produced evidence; priorities are non-increasing
along the list; and for every priority value the sublist at that priority
equals the corresponding sublist of the encounter-order list, so ties keep
encounter order (the stable sort). -/
theorem detectModules_members_sorted_stable (w : World) (index : ReferenceIndex)
    (cwd : String) (prompt : Option String) :
    (∀ r, r ∈ detectModules w index cwd prompt ↔
      ∃ nk ∈ index, evalEntry w cwd prompt nk.2 ≠ [] ∧
        r = mkResult nk (evalEntry w cwd prompt nk.2)) ∧
    (detectModules w index cwd prompt).Pairwise
      (fun a b => b.priority ≤ a.priority) ∧
    (∀ p : Int,
      (detectModules w index cwd prompt).filter (fun r => decide (r.priority = p)) =
      (preDetect w index cwd prompt).filter (fun r => decide (r.priority = p))) := by
  refine ⟨?_, sortDesc_pairwise _, fun p => sortDesc_filter _ p⟩
  intro r
  rw [detectModules, mem_sortDesc, mem_preDetect]

/-- Catalog entry fired by the oauth keyword, as in Scenario 3. -/
def c4Entry : ReferenceEntry :=
  { name := "auth", path := "references/auth.md", description := none
    triggers := ⟨none, none, none, some ["oauth"]⟩
    priority := 50, maxTokens := 2000, disabled := false, overrideTriggers := false }

theorem detectModules_members_sorted_stable_witness :
    mkResult ("auth", c4Entry) ["keyword: oauth"] ∈
      detectModules plainWorld [("auth", c4Entry)] "."
        (some "please add oauth support") :=
  ((detectModules_members_sorted_stable plainWorld [("auth", c4Entry)] "."
      (some "please add oauth support")).1
    (mkResult ("auth", c4Entry) ["keyword: oauth"])).mpr
    ⟨("auth", c4Entry), List.mem_singleton.mpr rfl, by decide, by decide⟩

/-- C9: detection consults only the fixed world (filesystem and process
oracles), the catalog, the working directory and the prompt; with all of
them unchanged, two runs return the same ordered list. -/
theorem detectModules_deterministic (w : World) (index : ReferenceIndex)
    (cwd : String) (prompt : Option String) (r1 r2 : List DetectionResult)
    (h1 : detectModules w index cwd prompt = r1)
    (h2 : detectModules w index cwd prompt = r2) : r1 = r2 :=
  h1.symm.trans h2

theorem detectModules_deterministic_witness :
    detectModules plainWorld [] "." none = [] :=
  detectModules_deterministic plainWorld [] "." none
    (detectModules plainWorld [] "." none) [] rfl rfl

/-! Budgeted Assembler (loadReferences). -/

def MAX_TOTAL_TOKENS : Int := 8000

/-- Accumulator of the loading loop. The accepted field is a proof-side
observer listing the Detection Results actually accepted; the code keeps
only their section texts and names (loadedContent, loadedModules). -/
structure LoadState : Type where
  totalTokens : Int
  loadedContent : List String
  loadedModules : List String
  accepted : List DetectionResult
deriving DecidableEq, Repr

def initLoadState : LoadState := ⟨0, [], [], []⟩

/-- The labeled section appended for one accepted entry. -/
def sectionText (m : DetectionResult) (body : String) : String :=
  "### " ++ jsToUpper m.module ++ "\n_Triggered by: "
    ++ jsJoin ", " m.triggers ++ "_\n\n" ++ body

/-- One iteration of the loading loop: skip (and log) an entry whose
declared cost would push the running total beyond the ceiling, skip an
entry whose body cannot be read or parsed, and otherwise append its
section and charge its declared maxTokens. -/
def loadStep (w : World) (ceiling : Int) (st : LoadState) (m : DetectionResult) :
    LoadState :=
  if st.totalTokens + m.maxTokens > ceiling then st
  else
    match w.readFile m.path with
    | none => st
    | some content =>
      match parseFrontmatter w content with
      | .error _ => st
      | .ok pd =>
        { totalTokens := st.totalTokens + m.maxTokens
          loadedContent := st.loadedContent ++ [sectionText m pd.body]
          loadedModules := st.loadedModules ++ [m.module]
          accepted := st.accepted ++ [m] }

def loadLoop (w : World) (ceiling : Int) (st : LoadState)
    (detected : List DetectionResult) : LoadState :=
  detected.foldl (loadStep w ceiling) st

/-- Load reference content with token budget management (loadReferences). -/
def loadReferences (w : World) (detected : List DetectionResult) : String :=
  let st := loadLoop w MAX_TOTAL_TOKENS initLoadState detected
  if st.loadedContent.isEmpty then ""
  else
    "## Module Rules (Auto-detected: " ++ jsJoin ", " st.loadedModules
      ++ ")\n\n" ++ jsJoin "\n\n---\n\n" st.loadedContent

theorem loadStep_invariant (w : World) (ceiling : Int) (st : LoadState)
    (m : DetectionResult)
    (hsum : st.totalTokens = (st.accepted.map DetectionResult.maxTokens).sum)
    (hle : st.totalTokens ≤ ceiling) :
    (loadStep w ceiling st m).totalTokens
        = ((loadStep w ceiling st m).accepted.map DetectionResult.maxTokens).sum ∧
      (loadStep w ceiling st m).totalTokens ≤ ceiling := by
  unfold loadStep
  split
  · exact ⟨hsum, hle⟩
  · next hgt =>
    split
    · exact ⟨hsum, hle⟩
    · split
      · exact ⟨hsum, hle⟩
      · constructor
        · simp [hsum]
        · simp only []
          omega

theorem loadLoop_invariant (w : World) (ceiling : Int)
    (detected : List DetectionResult) (st : LoadState)
    (hsum : st.totalTokens = (st.accepted.map DetectionResult.maxTokens).sum)
    (hle : st.totalTokens ≤ ceiling) :
    (loadLoop w ceiling st detected).totalTokens
        = ((loadLoop w ceiling st detected).accepted.map DetectionResult.maxTokens).sum ∧
      (loadLoop w ceiling st detected).totalTokens ≤ ceiling := by
  induction detected generalizing st with
  | nil => exact ⟨hsum, hle⟩
  | cons m t ih =>
    rcases loadStep_invariant w ceiling st m hsum hle with ⟨h1, h2⟩
    exact ih (loadStep w ceiling st m) h1 h2

theorem loadLoop_skip (w : World) (ceiling : Int) (st : LoadState)
    (m : DetectionResult) (t : List DetectionResult)
    (hskip : st.totalTokens + m.maxTokens > ceiling) :
    loadLoop w ceiling st (m :: t) = loadLoop w ceiling st t := by
  unfold loadLoop
  rw [List.foldl_cons]
  have : loadStep w ceiling st m = st := by
    unfold loadStep
    rw [if_pos hskip]
  rw [this]

/-- C3: starting from a zero counter against a non-negative ceiling, the
assembler loop keeps the running total equal to the sum of the declared
maxTokens of the accepted entries and never above the ceiling; an entry
whose cost would push past the ceiling leaves the state untouched, and the
loop still processes every later entry from the same state. -/
theorem loadReferences_respects_budget (w : World) (ceiling : Int)
    (detected : List DetectionResult) (hceil : 0 ≤ ceiling) :
    ((loadLoop w ceiling initLoadState detected).totalTokens
        = ((loadLoop w ceiling initLoadState detected).accepted.map
            DetectionResult.maxTokens).sum ∧
      (loadLoop w ceiling initLoadState detected).totalTokens ≤ ceiling) ∧
    (∀ st m t, st.totalTokens + m.maxTokens > ceiling →
      loadLoop w ceiling st (m :: t) = loadLoop w ceiling st t) :=
  ⟨loadLoop_invariant w ceiling detected initLoadState rfl hceil,
   fun st m t h => loadLoop_skip w ceiling st m t h⟩

/-- World whose bodies always read back a fixed plain document. -/
def c3ReadWorld : World := { plainWorld with readFile := fun _ => some "body" }

def c3Result (tok : Int) : DetectionResult :=
  { module := "m", path := "p.md", priority := 50, maxTokens := tok, triggers := ["keyword: k"] }

theorem loadReferences_respects_budget_witness :
    (loadLoop c3ReadWorld 3000 initLoadState
        [c3Result 2000, c3Result 2000, c3Result 500]).accepted
      = [c3Result 2000, c3Result 500] ∧
    (loadLoop c3ReadWorld 3000 initLoadState
        [c3Result 2000, c3Result 2000, c3Result 500]).totalTokens ≤ 3000 := by
  constructor
  · decide
  · exact ((loadReferences_respects_budget c3ReadWorld 3000
      [c3Result 2000, c3Result 2000, c3Result 500] (by decide)).1).2

/-- C10: the budget test is inclusive: an entry whose declared maxTokens
brings the running total exactly to the ceiling is not skipped, and, when
its body reads and parses, it is accepted. -/
theorem loadReferences_inclusive_boundary (w : World) (ceiling : Int)
    (st : LoadState) (m : DetectionResult) (t : List DetectionResult)
    (content : String) (pd : ParsedDoc)
    (hexact : st.totalTokens + m.maxTokens = ceiling)
    (hread : w.readFile m.path = some content)
    (hparse : parseFrontmatter w content = .ok pd) :
    m ∈ (loadLoop w ceiling st (m :: t)).accepted := by
  have hstep : loadStep w ceiling st m =
      { totalTokens := st.totalTokens + m.maxTokens
        loadedContent := st.loadedContent ++ [sectionText m pd.body]
        loadedModules := st.loadedModules ++ [m.module]
        accepted := st.accepted ++ [m] } := by
    unfold loadStep
    rw [if_neg (by omega), hread]
    show (match parseFrontmatter w content with
      | .error _ => st
      | .ok pd =>
        ({ totalTokens := st.totalTokens + m.maxTokens
           loadedContent := st.loadedContent ++ [sectionText m pd.body]
           loadedModules := st.loadedModules ++ [m.module]
           accepted := st.accepted ++ [m] } : LoadState)) = _
    rw [hparse]
  have hmono : ∀ (l : List DetectionResult) (s : LoadState),
      m ∈ s.accepted → m ∈ (loadLoop w ceiling s l).accepted := by
    intro l
    induction l with
    | nil => exact fun s h => h
    | cons x xs ih =>
      intro s h
      apply ih
      unfold loadStep
      split
      · exact h
      · split
        · exact h
        · split
          · exact h
          · exact List.mem_append.mpr (Or.inl h)
  show m ∈ (loadLoop w ceiling (loadStep w ceiling st m) t).accepted
  exact hmono t _ (by
    rw [hstep]
    exact List.mem_append.mpr (Or.inr (List.mem_singleton.mpr rfl)))

theorem loadReferences_inclusive_boundary_witness :
    c3Result 3000 ∈ (loadLoop c3ReadWorld 3000 initLoadState
      [c3Result 3000]).accepted :=
  loadReferences_inclusive_boundary c3ReadWorld 3000 initLoadState
    (c3Result 3000) [] "body" ⟨[], [], "body"⟩ (by decide) rfl rfl

/-! Catalog Loader (scanReferencesDirectory, loadReferenceIndex) and the
main entry point (detectAndLoadModuleRules). -/

/-- Dereference a triggers-object value through the block-array heap. -/
def resolveTrig (arrays : List (List String)) : TrigVal → List String
  | .href i => arrays.getD i []
  | .inline items => items

/-- The four optional trigger lists read off the frontmatter triggers
value: property lookups on an object or on an array object, and absent on
a primitive. -/
def extractTriggers (arrays : List (List String)) : Option FMValue → Triggers
  | some (.obj fields) =>
    { filePatterns := (objGet fields "filePatterns").map (resolveTrig arrays)
      imports := (objGet fields "imports").map (resolveTrig arrays)
      dependencies := (objGet fields "dependencies").map (resolveTrig arrays)
      keywords := (objGet fields "keywords").map (resolveTrig arrays) }
  | some (.arr _ props) =>
    { filePatterns := (objGet props "filePatterns").map (resolveTrig arrays)
      imports := (objGet props "imports").map (resolveTrig arrays)
      dependencies := (objGet props "dependencies").map (resolveTrig arrays)
      keywords := (objGet props "keywords").map (resolveTrig arrays) }
  | _ => ⟨none, none, none, none⟩

/-- One scanned file of the references directory: skipped when the read or
the parse fails, when name or triggers is missing or falsy, or when the
name is not a string (the lower-casing would throw); otherwise inserted
under the lower-cased name with defaulted priority and maxTokens. -/
def scanEntryFold (w : World) (dir : String) (index : ReferenceIndex)
    (file : String) : ReferenceIndex :=
  let filePath := pathJoin dir file
  match w.readFile filePath with
  | none => index
  | some content =>
    match parseFrontmatter w content with
    | .error _ => index
    | .ok pd =>
      if fmTruthy w (objGet pd.fm "name") && fmTruthy w (objGet pd.fm "triggers") then
        match objGet pd.fm "name" with
        | some (.str s) =>
          objSet index (jsToLower s)
            { name := s, path := filePath
              description := objGet pd.fm "description"
              triggers := extractTriggers pd.arrays (objGet pd.fm "triggers")
              priority :=
                match objGet pd.fm "priority" with
                | some v => w.fmNumber v
                | none => 50
              maxTokens :=
                match objGet pd.fm "maxTokens" with
                | some v => w.fmNumber v
                | none => 2000
              disabled := fmTruthy w (objGet pd.fm "disabled")
              overrideTriggers := fmTruthy w (objGet pd.fm "overrideTriggers") }
        | _ => index
      else index

/-- Scan references directory and build index from .md files
(scanReferencesDirectory). -/
def scanReferencesDirectory (w : World) (dir : String) : ReferenceIndex :=
  ((w.readdir dir).filter
      (fun f => jsEndsWith f ".md" && !(f == "README.md"))).foldl
    (scanEntryFold w dir) []

/-- Load reference index from a directory (loadReferenceIndex): the
sentinel none when the references directory does not exist, the parsed
index.json when it exists, reads and parses, and the scanned index
otherwise. -/
def loadReferenceIndex (w : World) (dir : String) : Option ReferenceIndex :=
  let referencesDir := pathJoin dir "references"
  if !(w.existsSync referencesDir) then none
  else
    let indexPath := pathJoin referencesDir "index.json"
    let viaIndex : Option ReferenceIndex :=
      if w.existsSync indexPath then
        match w.readFile indexPath with
        | some content => w.parseJson content
        | none => none
      else none
    match viaIndex with
    | some idx => some idx
    | none => some (scanReferencesDirectory w referencesDir)

/-- Detect and load module rules for the current session
(detectAndLoadModuleRules). -/
def detectAndLoadModuleRules (w : World) (config : ModuleRulesConfig) :
    Option String :=
  let userIndex := loadReferenceIndex w config.userDir
  let projectIndex := loadReferenceIndex w config.projectDir
  if userIndex.isNone && projectIndex.isNone then none
  else
    let mergedIndex := mergeIndices userIndex projectIndex
    if mergedIndex.length == 0 then none
    else
      let detected := detectModules w mergedIndex config.cwd config.prompt
      if detected.length == 0 then none
      else
        let content := loadReferences w detected
        if content == "" then none else some content

/-- C8: the loader returns the no-catalog sentinel exactly when the
references directory does not exist; when it exists a catalog is always
returned, and a parse failure of an existing index.json falls through to
the scanning path. -/
theorem loadReferenceIndex_contract (w : World) (dir : String) :
    (loadReferenceIndex w dir = none ↔
      w.existsSync (pathJoin dir "references") = false) ∧
    (∀ content, w.existsSync (pathJoin dir "references") = true →
      w.existsSync (pathJoin (pathJoin dir "references") "index.json") = true →
      w.readFile (pathJoin (pathJoin dir "references") "index.json") = some content →
      w.parseJson content = none →
      loadReferenceIndex w dir
        = some (scanReferencesDirectory w (pathJoin dir "references"))) := by
  by_cases hex : w.existsSync (pathJoin dir "references") = true
  · constructor
    · constructor
      · intro hnone
        exfalso
        unfold loadReferenceIndex at hnone
        rw [if_neg (by simp [hex])] at hnone
        have hnone2 : (match (if w.existsSync (pathJoin (pathJoin dir "references") "index.json") = true
            then (match w.readFile (pathJoin (pathJoin dir "references") "index.json") with
              | some c => w.parseJson c
              | none => none)
            else none : Option ReferenceIndex) with
          | some idx => some idx
          | none => some (scanReferencesDirectory w (pathJoin dir "references")))
            = (none : Option ReferenceIndex) := hnone
        revert hnone2
        split
        · intro h
          exact Option.noConfusion h
        · intro h
          exact Option.noConfusion h
      · intro hfalse
        rw [hex] at hfalse
        exact Bool.noConfusion hfalse
    · intro content _ h2 h3 h4
      unfold loadReferenceIndex
      rw [if_neg (by simp [hex])]
      have hvia : (if w.existsSync (pathJoin (pathJoin dir "references") "index.json") = true
          then (match w.readFile (pathJoin (pathJoin dir "references") "index.json") with
            | some content => w.parseJson content
            | none => none)
          else none) = (none : Option ReferenceIndex) := by
        rw [if_pos h2, h3]
        show w.parseJson content = none
        exact h4
      show (match (if w.existsSync (pathJoin (pathJoin dir "references") "index.json") = true
          then (match w.readFile (pathJoin (pathJoin dir "references") "index.json") with
            | some c => w.parseJson c
            | none => none)
          else none : Option ReferenceIndex) with
        | some idx => some idx
        | none => some (scanReferencesDirectory w (pathJoin dir "references"))) = _
      rw [hvia]
  · have hex2 : w.existsSync (pathJoin dir "references") = false := by
      simpa using hex
    constructor
    · constructor
      · intro _
        exact hex2
      · intro _
        unfold loadReferenceIndex
        rw [if_pos (by simp [hex2])]
    · intro content h1 _ _ _
      rw [hex2] at h1
      exact Bool.noConfusion h1

/-- World in which every directory exists but index.json never parses, so
every load falls through to the scanning path. -/
def c8World : World :=
  { plainWorld with
    existsSync := fun _ => true
    readFile := fun _ => some "not json"
    readdir := fun _ => [] }

theorem loadReferenceIndex_contract_witness :
    loadReferenceIndex c8World "/u"
      = some (scanReferencesDirectory c8World "/u/references") :=
  (loadReferenceIndex_contract c8World "/u").2 "not json" rfl rfl rfl rfl

/-- C5: the entry point is a total function of its world and config (the
embedding absorbs every internal failure into a value); when neither base
directory has a references directory the result is the absent value, and
a successful result is never the empty string, because zero loaded
entries collapse to the absent value. -/
theorem detectAndLoadModuleRules_total (w : World) (config : ModuleRulesConfig) :
    (w.existsSync (pathJoin config.userDir "references") = false →
     w.existsSync (pathJoin config.projectDir "references") = false →
     detectAndLoadModuleRules w config = none) ∧
    (∀ s, detectAndLoadModuleRules w config = some s → s ≠ "") := by
  constructor
  · intro hu hp
    have hu2 : loadReferenceIndex w config.userDir = none := by
      unfold loadReferenceIndex
      rw [if_pos (by simp [hu])]
    have hp2 : loadReferenceIndex w config.projectDir = none := by
      unfold loadReferenceIndex
      rw [if_pos (by simp [hp])]
    simp only [detectAndLoadModuleRules, hu2, hp2]
    rfl
  · intro s hs
    simp only [detectAndLoadModuleRules] at hs
    split at hs
    · exact Option.noConfusion hs
    · split at hs
      · exact Option.noConfusion hs
      · split at hs
        · exact Option.noConfusion hs
        · split at hs
          · exact Option.noConfusion hs
          · next hne =>
            injection hs with h
            intro h0
            apply hne
            rw [h, h0]
            simp

theorem detectAndLoadModuleRules_total_witness :
    detectAndLoadModuleRules plainWorld ⟨"/u", "/p", ".", none⟩ = none :=
  (detectAndLoadModuleRules_total plainWorld ⟨"/u", "/p", ".", none⟩).1 rfl rfl
